import Mathlib

/-!
Verification development for the ParkinPal voice-analysis backend
(`voice-backend/main.py`).

The acoustic-signal engine (parselmouth) and the recognizer (whisper) are
external collaborators; they are modelled as oracle functions returning
`Option ℚ` (with `none` standing for Python `None` / `NaN` / a raised
exception on a single query, all of which the source treats as "skip this
sample").  Times, frequencies and decibel values are exact rationals: the
source's `t = start; while t < limit: ...; t += step` loops are embedded as
maps over `List.range`, which is the exact-arithmetic meaning of those
loops.  `amplitudeJitter` divides a standard deviation by a mean, so it
lives in `ℝ`.  For-loops accumulating into a list or dict are embedded as
structural recursions carrying the accumulator.

Python's `round` (banker's rounding, round-half-to-even) is embedded as
`pyround`; `round(x, n)` as `roundTo n x`.
-/

/-- Characters stripped by the source's `rstrip(".,!?;:")` calls. -/
def isPunct (c : Char) : Bool :=
  c = '.' || c = ',' || c = '!' || c = '?' || c = ';' || c = ':'

/-- Models Python `str.lower()` on the character list of a string. -/
def pyLower (l : List Char) : List Char := l.map Char.toLower

/-- Models Python `str.strip()` (drop whitespace from both ends). -/
def pyStrip (l : List Char) : List Char :=
  ((l.dropWhile Char.isWhitespace).reverse.dropWhile Char.isWhitespace).reverse

/-- Models Python `str.rstrip(".,!?;:")`. -/
def pyRstripPunct (l : List Char) : List Char :=
  (l.reverse.dropWhile isPunct).reverse

/-- Models Python `str.split()` with no argument: split on runs of
whitespace, never producing empty tokens.  The second argument accumulates
the current (reversed) token. -/
def splitWSAux : List Char → List Char → List (List Char)
  | [], cur => if cur.isEmpty then [] else [cur.reverse]
  | c :: cs, cur =>
    if c.isWhitespace then
      if cur.isEmpty then splitWSAux cs [] else cur.reverse :: splitWSAux cs []
    else splitWSAux cs (c :: cur)

/-- Models Python `str.split()`. -/
def pySplitWS (l : List Char) : List (List Char) := splitWSAux l []

/-- The token normalisation `(w.word or "").strip().lower().rstrip(".,!?;:")`
applied to raw recognizer words in `words_from_faster_whisper`. -/
def normToken (s : String) : String :=
  String.mk (pyRstripPunct (pyLower (pyStrip s.data)))

section Rounding

variable {α : Type} [LinearOrderedField α] [FloorRing α]

/-- Models Python's built-in `round(x)` on exact values: round half to even
(banker's rounding). -/
def pyround (x : α) : ℤ :=
  if x - (⌊x⌋ : α) < 1/2 then ⌊x⌋
  else if 1/2 < x - (⌊x⌋ : α) then ⌊x⌋ + 1
  else if ⌊x⌋ % 2 = 0 then ⌊x⌋ else ⌊x⌋ + 1

/-- Models Python's `round(x, n)` on exact values. -/
def roundTo (n : ℕ) (x : α) : α :=
  ((pyround (x * (10 : α) ^ n) : ℤ) : α) / (10 : α) ^ n

end Rounding

/-- A recognized word with its time boundaries.  Field `wend` models the
source's `end` key (a Lean keyword). -/
structure Word where
  word : String
  start : ℚ
  wend : ℚ
  deriving DecidableEq, Repr

/-- The time points visited by `t = start; while t < limit: ...; t += step`
under exact rational arithmetic (`step > 0`). -/
def scanTimesLT (start step limit : ℚ) : List ℚ :=
  (List.range (⌈(limit - start) / step⌉.toNat)).map (fun i => start + (i : ℚ) * step)

/-- The time points visited by `t = start; while t <= limit: ...; t += step`
under exact rational arithmetic (`step > 0`). -/
def scanTimesLE (start step limit : ℚ) : List ℚ :=
  (List.range (⌊(limit - start) / step⌋ + 1).toNat).map (fun i => start + (i : ℚ) * step)

/-- The VOT target words (`targets = {"quick", "brown", "jumps"}`). -/
def votTargets : List String := ["quick", "brown", "jumps"]

/-- Python dict assignment `m[k] = v`: replace the value in place if the key
exists, otherwise append the binding at the end. -/
def dinsert (m : List (String × ℤ)) (k : String) (v : ℤ) : List (String × ℤ) :=
  if m.any (fun p => p.1 = k) then
    m.map (fun p => if p.1 = k then (k, v) else p)
  else m ++ [(k, v)]

/-- Burst search in `analyze_vot`: scan `[start, searchEnd)` at 5 ms steps,
keeping the time of the maximum intensity value seen (strict `>`, so the
first occurrence of the maximum wins); absent samples are skipped.  The
accumulator `(maxInt, burstTime)` starts at `(-100, start)`. -/
def findBurst (intensity : ℚ → Option ℚ) (start searchEnd : ℚ) : ℚ :=
  ((scanTimesLT start (5/1000) searchEnd).foldl
    (fun (acc : ℚ × ℚ) t =>
      match intensity t with
      | some v => if acc.1 < v then (v, t) else acc
      | none => acc)
    (-100, start)).2

/-- Voicing-onset search in `analyze_vot`: from the burst time, scan
`[burst, wend)` at 10 ms steps for the first time with a present, strictly
positive pitch value; default to `wend` when none is found. -/
def findVoicing (pitch : ℚ → Option ℚ) (burst wend : ℚ) : ℚ :=
  match (scanTimesLT burst (1/100) wend).find?
      (fun t => match pitch t with | some f0 => decide (0 < f0) | none => false) with
  | some t => t
  | none => wend

/-- The `for word_info in words` loop of `analyze_vot`, carrying the
`vot_results` accumulator. -/
def votLoop (intensity pitch : ℚ → Option ℚ) :
    List (String × ℤ) → List Word → List (String × ℤ)
  | acc, [] => acc
  | acc, w :: ws =>
    if w.word ∉ votTargets then votLoop intensity pitch acc ws
    else if w.wend - w.start < 5/100 then votLoop intensity pitch acc ws
    else
      votLoop intensity pitch
        (dinsert acc w.word
          (pyround (max 0
            ((findVoicing pitch
                (findBurst intensity w.start
                  (w.start + min (15/100) ((w.wend - w.start) * (4/10))))
                w.wend -
              findBurst intensity w.start
                (w.start + min (15/100) ((w.wend - w.start) * (4/10)))) * 1000))))
        ws

/-- Embeds `analyze_vot`: for each target-word occurrence at least 50 ms
long, find the burst and the voicing onset and record
`round(max(0, (voicing - burst) * 1000))` under the word's token. -/
def analyze_vot (intensity pitch : ℚ → Option ℚ) (words : List Word) :
    List (String × ℤ) :=
  votLoop intensity pitch [] words

/-- The fox/jumps pair-selection loop of `analyze_transition_stability`:
`fox_end` is overwritten at every `"fox"`, and the loop stops at the first
`"jumps"` seen while `fox_end` is already set. -/
def findPair : Option ℚ → List Word → Option (ℚ × ℚ)
  | _, [] => none
  | acc, w :: ws =>
    if w.word = "fox" then findPair (some w.wend) ws
    else if w.word = "jumps" then
      match acc with
      | some fe => some (fe, w.start)
      | none => findPair none ws
    else findPair acc ws

/-- Formant-trajectory phase of `analyze_transition_stability`: sample both
formants at 5 ms steps over `[foxEnd, jumpsStart]`, keep times where both are
present and truthy (Python `if f1 and f2` also rejects an exact 0.0), require
at least 3 kept samples spanning at least 20 ms, and normalise the summed
endpoint slopes by 20000, clamped to 1 and rounded to 3 decimals. -/
def formantPhase (formant : ℕ → ℚ → Option ℚ) (foxEnd jumpsStart : ℚ) : ℚ :=
  let samples := (scanTimesLE foxEnd (5/1000) jumpsStart).filterMap
    (fun t =>
      match formant 1 t, formant 2 t with
      | some f1, some f2 => if f1 ≠ 0 ∧ f2 ≠ 0 then some (t, f1, f2) else none
      | _, _ => none)
  if samples.length < 3 then 1/2
  else
    match samples, samples.getLast? with
    | (t0, f10, f20) :: _, some (t1, f11, f21) =>
      if t1 - t0 < 1/50 then 1/2
      else roundTo 3 (min 1 ((|f11 - f10| / (t1 - t0) + |f21 - f20| / (t1 - t0)) / 20000))
    | _, _ => 1/2

/-- Embeds `analyze_transition_stability`. -/
def analyze_transition_stability (formant : ℕ → ℚ → Option ℚ) (words : List Word) : ℚ :=
  match findPair none words with
  | none => 1/2
  | some (fe, js) => if js ≤ fe then 1/2 else formantPhase formant fe js

/-- Modelled from the spec's own words, for refinement comparison with
`analyze_transition_stability` (claim C1): locate the first pair
`(fox-occurrence, subsequent jumps-occurrence)` in utterance order whose
jumps start is strictly after that fox's end. -/
def specFirstValidPair : List Word → Option (ℚ × ℚ)
  | [] => none
  | w :: ws =>
    if w.word = "fox" then
      match ws.find? (fun v => v.word = "jumps" && decide (w.wend < v.start)) with
      | some v => some (w.wend, v.start)
      | none => specFirstValidPair ws
    else specFirstValidPair ws

/-- Modelled from the spec's own words (claim C1): transition stability
computed from the first valid fox/jumps pair, with the same formant phase. -/
def specTransitionStability (formant : ℕ → ℚ → Option ℚ) (words : List Word) : ℚ :=
  match specFirstValidPair words with
  | none => 1/2
  | some (fe, js) => formantPhase formant fe js

/-- Decides that a word list contains no `"jumps"` occurrence preceded
(anywhere earlier in the list) by a `"fox"`: exactly the condition under
which the selection loop of `analyze_transition_stability` runs through the
whole list without stopping. -/
def NoQualB : List Word → Bool
  | [] => true
  | w :: ws =>
    if w.word = "fox" then ws.all (fun v => v.word ≠ "jumps") else NoQualB ws

/-- Per-group metrics inside `analyze_prosodic_decay`: average intensity over
the group's span (0 when absent or NaN) and words-per-second rate. -/
def seg_metrics (avgIntensity : ℚ → ℚ → Option ℚ) (sws : List Word) : ℚ × ℚ :=
  match sws with
  | [] => (0, 0)
  | w :: rest =>
    ((avgIntensity w.start (((w :: rest).getLast?.getD w).wend)).getD 0,
      if 0 < (((w :: rest).getLast?.getD w).wend) - w.start then
        ((w :: rest).length : ℚ) / ((((w :: rest).getLast?.getD w).wend) - w.start)
      else 0)

/-- Embeds `analyze_prosodic_decay` (first 3 vs last 3 words; both relative
decays clamped at 0 and rounded to 3 decimals).  Returns the pair
`(amplitudeDecay, rateDecay)`. -/
def analyze_prosodic_decay (avgIntensity : ℚ → ℚ → Option ℚ) (words : List Word) : ℚ × ℚ :=
  if words.length < 6 then (0, 0)
  else
    (roundTo 3 (max 0
        (if 0 < (seg_metrics avgIntensity (words.take 3)).1 then
          ((seg_metrics avgIntensity (words.take 3)).1 -
              (seg_metrics avgIntensity (words.drop (words.length - 3))).1) /
            (seg_metrics avgIntensity (words.take 3)).1
        else 0)),
      roundTo 3 (max 0
        (if 0 < (seg_metrics avgIntensity (words.take 3)).2 then
          ((seg_metrics avgIntensity (words.take 3)).2 -
              (seg_metrics avgIntensity (words.drop (words.length - 3))).2) /
            (seg_metrics avgIntensity (words.take 3)).2
        else 0)))

/-- Embeds `analyze_vowel_space`: formants at the midpoint of the first
occurrence of "fox" and "lazy" (Python truthiness again rejects 0.0). -/
def analyze_vowel_space (formant : ℕ → ℚ → Option ℚ) (words : List Word) :
    List (String × ℤ) :=
  ["fox", "lazy"].foldl
    (fun acc target =>
      match words.find? (fun w => w.word = target) with
      | none => acc
      | some w =>
        match formant 1 ((w.start + w.wend) / 2), formant 2 ((w.start + w.wend) / 2) with
        | some f1, some f2 =>
          if f1 ≠ 0 ∧ f2 ≠ 0 then
            acc ++ [(target ++ "_F1", pyround f1), (target ++ "_F2", pyround f2)]
          else acc
        | _, _ => acc)
    []

/-- The intensity samples surviving the 20 ms scan of
`analyze_amplitude_jitter` (Python `if v and not np.isnan(v)` skips absent,
NaN and exact-0.0 samples). -/
def jitterSamples (intensity : ℚ → Option ℚ) (duration : ℚ) : List ℚ :=
  (scanTimesLT 0 (1/50) duration).filterMap
    (fun t =>
      match intensity t with
      | some v => if v ≠ 0 then some v else none
      | none => none)

/-- Mean of a list of rationals, as `np.mean`. -/
def listMean (l : List ℚ) : ℚ := l.sum / (l.length : ℚ)

/-- The absolute successive differences `abs(values[i+1] - values[i])`. -/
def jitterDiffs (l : List ℚ) : List ℚ := (l.zip l.tail).map (fun p => |p.2 - p.1|)

/-- Population variance, the square of `np.std`. -/
def npVariance (l : List ℚ) : ℚ := listMean (l.map (fun x => (x - listMean l) ^ 2))

/-- Embeds `analyze_amplitude_jitter`: the population standard deviation of
the successive differences of the surviving samples, divided by the sample
mean (0 unless the mean is strictly positive), rounded to 4 decimals.
`np.std` takes a square root, so the result lives in `ℝ`. -/
noncomputable def analyze_amplitude_jitter (intensity : ℚ → Option ℚ) (duration : ℚ) : ℝ :=
  if (jitterSamples intensity duration).length < 5 then 0
  else
    roundTo 4
      (if 0 < listMean (jitterSamples intensity duration) then
        Real.sqrt ((npVariance (jitterDiffs (jitterSamples intensity duration)) : ℚ) : ℝ) /
          ((listMean (jitterSamples intensity duration) : ℚ) : ℝ)
      else 0)

section Scorer

variable {α : Type} [LinearOrderedField α] [FloorRing α]

/-- The metrics consumed by `compute_score` (the `vowelSpace` entry of the
bundle is never read by the scorer). -/
structure Metrics (α : Type) where
  vot : List (String × ℤ)
  transitionStability : α
  amplitudeDecay : α
  amplitudeJitter : α

/-- Mean of the recorded VOT values, `np.mean(list(vot.values()))`, with the
source's default of 50 when the mapping is empty. -/
def votAvg (l : List (String × ℤ)) : α :=
  if l.isEmpty then 50 else (l.map (fun p => ((p.2 : ℤ) : α))).sum / (l.length : α)

/-- VOT contribution of `compute_score`. -/
def votScore (va : α) : α :=
  if 80 < va then 5/2 else if 60 < va then 3/2 else if 45 < va then 1/2 else 0

/-- Transition-stability contribution of `compute_score`. -/
def stabScore (s : α) : α :=
  if s < 3/10 then 2 else if s < 1/2 then 1 else 0

/-- Amplitude-decay contribution of `compute_score`. -/
def decayScore (a : α) : α :=
  if 1/4 < a then 2 else if 3/20 < a then 1 else 0

/-- Amplitude-jitter contribution of `compute_score`. -/
def jitterScore (j : α) : α :=
  if 3/50 < j then 2 else if 1/25 < j then 1 else 0

/-- Duration contribution of `compute_score`
(`duration_ratio = duration / 4.0 if duration > 0 else 1`). -/
def durScore (d : α) : α :=
  if (if 0 < d then d / 4 else 1) < 1/2 ∨ 2 < (if 0 < d then d / 4 else 1) then 1 else 0

/-- The unclamped additive score of `compute_score`. -/
def rawScore (m : Metrics α) (d : α) : α :=
  votScore (votAvg m.vot) + stabScore m.transitionStability +
    decayScore m.amplitudeDecay + jitterScore m.amplitudeJitter + durScore d

/-- Embeds `compute_score`: `round(min(10, max(0, score)), 1)`. -/
def compute_score (m : Metrics α) (d : α) : α :=
  roundTo 1 (min 10 (max 0 (rawScore m d)))

end Scorer

/-- A raw word from a faster-whisper segment (`w.word`, `w.start`, `w.end`;
Python `None` for `w.word` is turned into `""` by `w.word or ""`). -/
structure RawWord where
  word : String
  start : ℚ
  wend : ℚ
  deriving DecidableEq, Repr

/-- A faster-whisper segment.  `words` models `segment.words or []` (Python
`None` and `[]` behave identically there), `text` models
`segment.text or ""`. -/
structure Segment where
  words : List RawWord
  text : String
  start : ℚ
  wend : ℚ
  deriving DecidableEq, Repr

/-- First pass of `words_from_faster_whisper`: one `Word` per raw word whose
normalised token is non-empty, in segment order. -/
def wordLevelWords : List Segment → List Word
  | [] => []
  | seg :: rest =>
    seg.words.filterMap
      (fun w =>
        if normToken w.word = "" then none
        else some ⟨normToken w.word, w.start, w.wend⟩) ++
      wordLevelWords rest

/-- Fallback pass of `words_from_faster_whisper`: split each segment's text
on whitespace and distribute the segment's span evenly over the tokens,
dropping tokens that are empty after punctuation stripping. -/
def evenSplitWords : List Segment → List Word
  | [] => []
  | seg :: rest =>
    (if (pySplitWS (pyLower (pyStrip seg.text.data))).isEmpty then []
    else
      (pySplitWS (pyLower (pyStrip seg.text.data))).enum.filterMap
        (fun p =>
          if (pyRstripPunct p.2).isEmpty then none
          else some ⟨String.mk (pyRstripPunct p.2),
            seg.start + (p.1 : ℚ) *
              ((seg.wend - seg.start) /
                ((pySplitWS (pyLower (pyStrip seg.text.data))).length : ℚ)),
            seg.start + ((p.1 : ℚ) + 1) *
              ((seg.wend - seg.start) /
                ((pySplitWS (pyLower (pyStrip seg.text.data))).length : ℚ))⟩)) ++
      evenSplitWords rest

/-- Embeds `words_from_faster_whisper`: the even-split fallback runs only
when the first pass produced no words at all. -/
def words_from_faster_whisper (segments : List Segment) (duration : ℚ) : List Word :=
  if (wordLevelWords segments).isEmpty then evenSplitWords segments
  else wordLevelWords segments

/-- The signal-engine view of the decoded recording (`parselmouth.Sound`
plus the derived pitch/intensity/formant objects), as a bundle of oracles. -/
structure Sound where
  duration : ℚ
  pitch : ℚ → Option ℚ
  intensity : ℚ → Option ℚ
  formant : ℕ → ℚ → Option ℚ
  avgIntensity : ℚ → ℚ → Option ℚ

/-- The full metrics bundle assembled by the `analyze` endpoint. -/
structure MetricsBundle where
  vot : List (String × ℤ)
  transitionStability : ℚ
  prosodicDecay : ℚ × ℚ
  vowelSpace : List (String × ℤ)
  amplitudeJitter : ℝ

/-- The success payload of `POST /analyze`. -/
structure AnalyzeResponse where
  score : ℝ
  duration : ℚ
  metrics : MetricsBundle
  wordBoundaries : List Word

/-- The byte string `b"RIFF"`. -/
def riffMagic : List ℕ := [82, 73, 70, 70]

/-- The byte string `b"WAVE"`. -/
def waveMagic : List ℕ := [87, 65, 86, 69]

/-- Embeds `decode_audio` up to the filesystem write: the argument is the
result of `base64.b64decode` (`none` when that raises), errors are
`(status, detail)` pairs. -/
def decode_audio (b64res : Option (List ℕ)) : Except (ℕ × String) (List ℕ) :=
  match b64res with
  | none => .error (400, "Invalid base64 audio")
  | some bs =>
    if bs.length < 44 then .error (400, "Audio data too short")
    else if bs.take 4 ≠ riffMagic ∨ (bs.drop 8).take 4 ≠ waveMagic then
      .error (400, "Invalid WAV format")
    else .ok bs

/-- The inputs of one `POST /analyze` request: the decoded payload, and the
outcomes of the two fallible collaborator calls (`parselmouth.Sound` and
`model.transcribe`), which surface any exception message. -/
structure AnalyzeInput where
  b64 : Option (List ℕ)
  soundLoad : Except String Sound
  transcribe : Except String (List Segment)

/-- Embeds the `analyze` endpoint handler: `HTTPException`s propagate with
their status, any other exception becomes a 500 with its message. -/
noncomputable def analyze (inp : AnalyzeInput) : Except (ℕ × String) AnalyzeResponse :=
  match decode_audio inp.b64 with
  | .error e => .error e
  | .ok _ =>
    match inp.soundLoad with
    | .error msg => .error (500, msg)
    | .ok sound =>
      if sound.duration < 1 then .error (400, "Recording too short (min 1 second)")
      else
        match inp.transcribe with
        | .error msg => .error (500, msg)
        | .ok segments =>
          .ok
            ⟨compute_score (α := ℝ)
                ⟨analyze_vot sound.intensity sound.pitch
                    (words_from_faster_whisper segments sound.duration),
                  ((analyze_transition_stability sound.formant
                      (words_from_faster_whisper segments sound.duration) : ℚ) : ℝ),
                  (((analyze_prosodic_decay sound.avgIntensity
                      (words_from_faster_whisper segments sound.duration)).1 : ℚ) : ℝ),
                  analyze_amplitude_jitter sound.intensity sound.duration⟩
                ((sound.duration : ℚ) : ℝ),
              roundTo 1 sound.duration,
              ⟨analyze_vot sound.intensity sound.pitch
                  (words_from_faster_whisper segments sound.duration),
                analyze_transition_stability sound.formant
                  (words_from_faster_whisper segments sound.duration),
                analyze_prosodic_decay sound.avgIntensity
                  (words_from_faster_whisper segments sound.duration),
                analyze_vowel_space sound.formant
                  (words_from_faster_whisper segments sound.duration),
                analyze_amplitude_jitter sound.intensity sound.duration⟩,
              words_from_faster_whisper segments sound.duration⟩

/-- A well-formed decoded payload: at least 44 bytes, with the RIFF and WAVE
magic strings in place. -/
def validHeader (bs : List ℕ) : Prop :=
  44 ≤ bs.length ∧ bs.take 4 = riffMagic ∧ (bs.drop 8).take 4 = waveMagic

/-- The input-validation failures that the spec classifies as 400-class
errors: base64 failure, undersized or non-WAV payload, or a decoded
recording shorter than one second. -/
def badInput (inp : AnalyzeInput) : Prop :=
  inp.b64 = none
  ∨ (∃ bs, inp.b64 = some bs ∧ ¬ validHeader bs)
  ∨ (∃ bs s, inp.b64 = some bs ∧ validHeader bs ∧
      inp.soundLoad = Except.ok s ∧ s.duration < 1)

/-- Intensity oracle of spec scenario A: 70 dB at the peak time 1.05 s,
60 dB elsewhere. -/
def scnIntensity : ℚ → Option ℚ := fun t => some (if t = 21/20 then 70 else 60)

/-- Pitch oracle of spec scenario A: unvoiced before 1.09 s, voiced after. -/
def scnPitch : ℚ → Option ℚ := fun t => if t < 109/100 then none else some 120

/-- The word of spec scenario A. -/
def scnQuick : Word := ⟨"quick", 1, 13/10⟩

/-- Counterexample word list for claim C1: the first fox ends at 1.0 and a
valid jumps starts later at 1.03, but a second fox ending at 1.04 sits in
between, so the selection loop pairs the jumps with the *last* fox and
rejects the pair. -/
def cexWords : List Word :=
  [⟨"fox", 0, 1⟩, ⟨"fox", 101/100, 26/25⟩, ⟨"jumps", 103/100, 2⟩]

/-- Formant oracle for the C1 counterexample: both formants constantly
100 Hz, so the formant phase of the valid pair yields slope 0, not the
fallback 0.5. -/
def cexFormant : ℕ → ℚ → Option ℚ := fun _ _ => some 100

/-- A minimal well-formed WAV payload: RIFF magic, 4 filler bytes, WAVE
magic, 32 filler bytes (44 bytes in total). -/
def okWavBytes : List ℕ := riffMagic ++ [0, 0, 0, 0] ++ waveMagic ++ List.replicate 32 0

section RoundingLemmas

variable {α : Type} [LinearOrderedField α] [FloorRing α]

theorem pyround_intCast (z : ℤ) : pyround ((z : α)) = z := by
  unfold pyround
  simp

theorem pyround_nonneg {x : α} (hx : 0 ≤ x) : 0 ≤ pyround x := by
  unfold pyround
  have hf : (0 : ℤ) ≤ ⌊x⌋ := Int.floor_nonneg.mpr hx
  split_ifs <;> omega

theorem roundTo_nonneg {n : ℕ} {x : α} (hx : 0 ≤ x) : 0 ≤ roundTo n x := by
  unfold roundTo
  have h10 : (0 : α) < (10 : α) ^ n := by positivity
  have h1 : (0 : ℤ) ≤ pyround (x * (10 : α) ^ n) := pyround_nonneg (by positivity)
  have h2 : (0 : α) ≤ ((pyround (x * (10 : α) ^ n) : ℤ) : α) := by exact_mod_cast h1
  positivity

theorem roundTo_zero (n : ℕ) : roundTo n (0 : α) = 0 := by
  unfold roundTo
  have h : ((0 : α) * (10 : α) ^ n) = ((0 : ℤ) : α) := by push_cast; ring
  rw [h, pyround_intCast]
  simp

end RoundingLemmas

section ScorerLemmas

variable {α : Type} [LinearOrderedField α] [FloorRing α]

theorem votScore_mono {a b : α} (h : a ≤ b) : votScore a ≤ votScore b := by
  unfold votScore
  split_ifs <;> linarith

theorem stabScore_anti {a b : α} (h : b ≤ a) : stabScore a ≤ stabScore b := by
  unfold stabScore
  split_ifs <;> linarith

theorem decayScore_mono {a b : α} (h : a ≤ b) : decayScore a ≤ decayScore b := by
  unfold decayScore
  split_ifs <;> linarith

theorem jitterScore_mono {a b : α} (h : a ≤ b) : jitterScore a ≤ jitterScore b := by
  unfold jitterScore
  split_ifs <;> linarith

theorem durScore_nonneg (d : α) : 0 ≤ durScore d := by
  unfold durScore
  split_ifs <;> norm_num

theorem durScore_eq_zero {d : α} (h1 : 1/2 ≤ d/4) (h2 : d/4 ≤ 2) : durScore d = 0 := by
  have hd : 0 < d := by nlinarith
  unfold durScore
  simp only [if_pos hd]
  rw [if_neg]
  push_neg
  exact ⟨h1, h2⟩

theorem votScore_half (a : α) : ∃ z : ℤ, votScore a = (z : α)/2 ∧ 0 ≤ z ∧ z ≤ 5 := by
  unfold votScore
  split_ifs
  · exact ⟨5, by norm_num⟩
  · exact ⟨3, by norm_num⟩
  · exact ⟨1, by norm_num⟩
  · exact ⟨0, by norm_num⟩

theorem stabScore_half (a : α) : ∃ z : ℤ, stabScore a = (z : α)/2 ∧ 0 ≤ z ∧ z ≤ 4 := by
  unfold stabScore
  split_ifs
  · exact ⟨4, by norm_num⟩
  · exact ⟨2, by norm_num⟩
  · exact ⟨0, by norm_num⟩

theorem decayScore_half (a : α) : ∃ z : ℤ, decayScore a = (z : α)/2 ∧ 0 ≤ z ∧ z ≤ 4 := by
  unfold decayScore
  split_ifs
  · exact ⟨4, by norm_num⟩
  · exact ⟨2, by norm_num⟩
  · exact ⟨0, by norm_num⟩

theorem jitterScore_half (a : α) : ∃ z : ℤ, jitterScore a = (z : α)/2 ∧ 0 ≤ z ∧ z ≤ 4 := by
  unfold jitterScore
  split_ifs
  · exact ⟨4, by norm_num⟩
  · exact ⟨2, by norm_num⟩
  · exact ⟨0, by norm_num⟩

theorem durScore_half (d : α) : ∃ z : ℤ, durScore d = (z : α)/2 ∧ 0 ≤ z ∧ z ≤ 2 := by
  unfold durScore
  by_cases h : (if 0 < d then d / 4 else 1) < 1/2 ∨ 2 < (if 0 < d then d / 4 else 1)
  · rw [if_pos h]
    exact ⟨2, by norm_num⟩
  · rw [if_neg h]
    exact ⟨0, by norm_num⟩

theorem rawScore_half (m : Metrics α) (d : α) :
    ∃ z : ℤ, rawScore m d = (z : α)/2 ∧ 0 ≤ z ∧ z ≤ 19 := by
  obtain ⟨z1, e1, l1, u1⟩ := votScore_half (α := α) (votAvg m.vot)
  obtain ⟨z2, e2, l2, u2⟩ := stabScore_half (α := α) m.transitionStability
  obtain ⟨z3, e3, l3, u3⟩ := decayScore_half (α := α) m.amplitudeDecay
  obtain ⟨z4, e4, l4, u4⟩ := jitterScore_half (α := α) m.amplitudeJitter
  obtain ⟨z5, e5, l5, u5⟩ := durScore_half (α := α) d
  refine ⟨z1 + z2 + z3 + z4 + z5, ?_, by omega, by omega⟩
  rw [rawScore, e1, e2, e3, e4, e5]
  push_cast
  ring

theorem compute_score_eq_rawScore (m : Metrics α) (d : α) :
    compute_score m d = rawScore m d := by
  obtain ⟨z, hz, h0, h19⟩ := rawScore_half m d
  have hz0 : (0 : α) ≤ (z : α) := by exact_mod_cast h0
  have hz19 : (z : α) ≤ 19 := by exact_mod_cast h19
  have hnn : (0 : α) ≤ rawScore m d := by rw [hz]; linarith
  have hle : rawScore m d ≤ 10 := by rw [hz]; linarith
  rw [compute_score, max_eq_right hnn, min_eq_right hle, roundTo, hz]
  have h5 : ((z : α)/2) * (10 : α) ^ 1 = ((5 * z : ℤ) : α) := by push_cast; ring
  rw [h5, pyround_intCast]
  push_cast
  ring

end ScorerLemmas

/-- C10: for every metrics bundle and duration, `compute_score` returns at
most 9.5, the sum of the maximal contributions 2.5 + 2 + 2 + 2 + 1, so the
`min(10, ·)` clamp in the final expression is never the binding bound. -/
theorem compute_score_le_nineteen_halves (m : Metrics ℚ) (d : ℚ) :
    compute_score m d ≤ 19/2 := by
  rw [compute_score_eq_rawScore]
  obtain ⟨z, hz, h0, h19⟩ := rawScore_half m d
  rw [hz]
  have : (z : ℚ) ≤ 19 := by exact_mod_cast h19
  linarith

/-- C2: `compute_score` returns a value in `[0, 10]` that is an integer
multiple of one tenth, and the score is jointly (hence individually)
monotone in the risk signals: raising the mean VOT, lowering the transition
stability, raising the amplitude decay, raising the jitter, or moving
`duration / 4` from inside `[1/2, 2]` to anywhere else never decreases the
returned score. -/
theorem compute_score_range_and_monotone (m₁ m₂ : Metrics ℚ) (d₁ d₂ : ℚ)
    (hv : votAvg (α := ℚ) m₁.vot ≤ votAvg (α := ℚ) m₂.vot)
    (hs : m₂.transitionStability ≤ m₁.transitionStability)
    (hd : m₁.amplitudeDecay ≤ m₂.amplitudeDecay)
    (hj : m₁.amplitudeJitter ≤ m₂.amplitudeJitter)
    (hdur : (1/2 ≤ d₁ / 4 ∧ d₁ / 4 ≤ 2) ∨ d₁ = d₂) :
    0 ≤ compute_score m₁ d₁ ∧ compute_score m₁ d₁ ≤ 10 ∧
      (10 * compute_score m₁ d₁).den = 1 ∧
      compute_score m₁ d₁ ≤ compute_score m₂ d₂ := by
  obtain ⟨z, hz, h0, h19⟩ := rawScore_half (α := ℚ) m₁ d₁
  have hz0 : (0 : ℚ) ≤ (z : ℚ) := by exact_mod_cast h0
  have hz19 : (z : ℚ) ≤ 19 := by exact_mod_cast h19
  refine ⟨?_, ?_, ?_, ?_⟩
  · rw [compute_score_eq_rawScore, hz]; linarith
  · rw [compute_score_eq_rawScore, hz]; linarith
  · rw [compute_score_eq_rawScore, hz]
    have h10 : (10 : ℚ) * ((z : ℚ)/2) = ((5 * z : ℤ) : ℚ) := by push_cast; ring
    rw [h10, Rat.den_intCast]
  · rw [compute_score_eq_rawScore, compute_score_eq_rawScore]
    unfold rawScore
    have h5 : durScore d₁ ≤ durScore d₂ := by
      rcases hdur with ⟨ha, hb⟩ | rfl
      · rw [durScore_eq_zero ha hb]; exact durScore_nonneg d₂
      · exact le_refl _
    exact add_le_add (add_le_add (add_le_add (add_le_add
      (votScore_mono hv) (stabScore_anti hs)) (decayScore_mono hd))
      (jitterScore_mono hj)) h5

set_option maxRecDepth 100000 in
unseal Rat.add Rat.mul Rat.sub Rat.inv in
theorem compute_score_range_and_monotone_witness :
    0 ≤ compute_score (α := ℚ) ⟨[("quick", 50)], 1/2, 0, 0⟩ 4 ∧
      compute_score (α := ℚ) ⟨[("quick", 50)], 1/2, 0, 0⟩ 4 ≤ 10 ∧
      (10 * compute_score (α := ℚ) ⟨[("quick", 50)], 1/2, 0, 0⟩ 4).den = 1 ∧
      compute_score (α := ℚ) ⟨[("quick", 50)], 1/2, 0, 0⟩ 4 ≤
        compute_score (α := ℚ) ⟨[("quick", 90)], 0, 1, 1⟩ 100 :=
  compute_score_range_and_monotone ⟨[("quick", 50)], 1/2, 0, 0⟩ ⟨[("quick", 90)], 0, 1, 1⟩ 4 100
    (by decide) (by norm_num) (by norm_num) (by norm_num) (Or.inl (by norm_num))

set_option maxRecDepth 100000 in
unseal Rat.add Rat.mul Rat.sub Rat.inv in
/-- C3: following the additive threshold table, mean VOT 90, stability 0.2,
amplitude decay 0.3, jitter 0.07 and duration 4 s (ratio 1) score
2.5 + 2 + 2 + 2 + 0 = 8.5 exactly; and an empty VOT mapping scores exactly
as a mapping whose mean is the default 50. -/
theorem compute_score_scenarioE :
    compute_score (α := ℚ) ⟨[("quick", 90)], 1/5, 3/10, 7/100⟩ 4 = 17/2 ∧
      ∀ (s a j d : ℚ), compute_score (α := ℚ) ⟨[], s, a, j⟩ d =
        compute_score (α := ℚ) ⟨[("quick", 50)], s, a, j⟩ d := by
  constructor
  · decide
  · intro s a j d
    have h : votAvg (α := ℚ) ([] : List (String × ℤ)) = votAvg (α := ℚ) [("quick", 50)] := by
      simp [votAvg]
    simp only [compute_score, rawScore, h]

theorem findPair_no_jumps (l : List Word) (hl : ∀ v ∈ l, v.word ≠ "jumps") :
    ∀ (acc : Option ℚ) (wf : Word) (rest : List Word), wf.word = "fox" →
      findPair acc (l ++ wf :: rest) = findPair (some wf.wend) rest := by
  induction l with
  | nil =>
    intro acc wf rest hwf
    simp [findPair, hwf]
  | cons v l ih =>
    intro acc wf rest hwf
    have hv : v.word ≠ "jumps" := hl v (List.mem_cons_self v l)
    have hl2 : ∀ u ∈ l, u.word ≠ "jumps" := fun u hu => hl u (List.mem_cons_of_mem v hu)
    by_cases hvf : v.word = "fox"
    · simp only [List.cons_append, findPair, if_pos hvf]
      exact ih hl2 (some v.wend) wf rest hwf
    · simp only [List.cons_append, findPair, if_neg hvf, if_neg hv]
      exact ih hl2 acc wf rest hwf

theorem findPair_inert (l : List Word)
    (hl : ∀ v ∈ l, v.word ≠ "fox" ∧ v.word ≠ "jumps") :
    ∀ (fe : ℚ) (wj : Word) (rest : List Word), wj.word = "jumps" →
      findPair (some fe) (l ++ wj :: rest) = some (fe, wj.start) := by
  induction l with
  | nil =>
    intro fe wj rest hwj
    have hjf : wj.word ≠ "fox" := by rw [hwj]; decide
    simp [findPair, hjf, hwj]
  | cons v l ih =>
    intro fe wj rest hwj
    obtain ⟨hvf, hvj⟩ := hl v (List.mem_cons_self v l)
    have hl2 : ∀ u ∈ l, u.word ≠ "fox" ∧ u.word ≠ "jumps" :=
      fun u hu => hl u (List.mem_cons_of_mem v hu)
    simp only [List.cons_append, findPair, if_neg hvf, if_neg hvj]
    exact ih hl2 fe wj rest hwj

theorem findPair_pre (pre : List Word) (hpre : NoQualB pre = true) :
    ∀ (wf : Word) (rest : List Word), wf.word = "fox" →
      findPair none (pre ++ wf :: rest) = findPair (some wf.wend) rest := by
  induction pre with
  | nil =>
    intro wf rest hwf
    simp [findPair, hwf]
  | cons v pre ih =>
    intro wf rest hwf
    by_cases hvf : v.word = "fox"
    · have hnj : ∀ u ∈ pre, u.word ≠ "jumps" := by
        rw [NoQualB, if_pos hvf, List.all_eq_true] at hpre
        intro u hu
        simpa using hpre u hu
      simp only [List.cons_append, findPair, if_pos hvf]
      exact findPair_no_jumps pre hnj (some v.wend) wf rest hwf
    · have hpre2 : NoQualB pre = true := by rwa [NoQualB, if_neg hvf] at hpre
      by_cases hvj : v.word = "jumps"
      · simp only [List.cons_append, findPair, if_neg hvf, if_pos hvj]
        exact ih hpre2 wf rest hwf
      · simp only [List.cons_append, findPair, if_neg hvf, if_neg hvj]
        exact ih hpre2 wf rest hwf

/-- C1 (amended): the pair that `analyze_transition_stability` evaluates is
(last fox before the first fox-preceded jumps, that jumps), not the first
valid pair.  For any decomposition `pre ++ fox :: mid ++ jumps :: post`
where `pre` contains no jumps preceded by a fox and `mid` contains neither
fox nor jumps, the result is the 0.5 fallback when that jumps starts at or
before that fox's end, and otherwise the formant phase of exactly that
pair. -/
theorem transition_pair_selection (F : ℕ → ℚ → Option ℚ)
    (pre mid post : List Word) (wf wj : Word)
    (hf : wf.word = "fox") (hj : wj.word = "jumps")
    (hpre : NoQualB pre = true)
    (hmid : ∀ v ∈ mid, v.word ≠ "fox" ∧ v.word ≠ "jumps") :
    analyze_transition_stability F (pre ++ wf :: (mid ++ wj :: post)) =
      if wj.start ≤ wf.wend then 1/2 else formantPhase F wf.wend wj.start := by
  unfold analyze_transition_stability
  rw [findPair_pre pre hpre wf (mid ++ wj :: post) hf,
    findPair_inert mid hmid wf.wend wj post hj]

theorem transition_pair_selection_witness :
    analyze_transition_stability (fun _ _ => none)
        [⟨"fox", 0, 1⟩, ⟨"jumps", 3/2, 2⟩] =
      if (3/2 : ℚ) ≤ 1 then 1/2
      else formantPhase (fun _ _ => none) 1 (3/2) :=
  transition_pair_selection (fun _ _ => none) [] [] [] ⟨"fox", 0, 1⟩ ⟨"jumps", 3/2, 2⟩
    rfl rfl rfl (by simp)

set_option maxRecDepth 100000 in
unseal Rat.add Rat.mul Rat.sub Rat.inv in
/-- C1 (counterexample): on `cexWords` the first fox (ending at 1.0) forms a
valid pair with the jumps starting at 1.03, and the spec-modelled
first-valid-pair computation returns the formant-phase value 0; but the code
pairs that jumps with the *later* fox ending at 1.04, rejects the pair, and
returns the 0.5 fallback without consulting the formant oracle. -/
theorem transition_first_pair_counterexample :
    specFirstValidPair cexWords = some (1, 103/100) ∧
      specTransitionStability cexFormant cexWords = 0 ∧
      analyze_transition_stability cexFormant cexWords = 1/2 := by
  refine ⟨by decide, by decide, by decide⟩

set_option maxRecDepth 100000 in
unseal Rat.add Rat.mul Rat.sub Rat.inv in
/-- C4: spec scenario A, for a word `{"quick", start: 1.00, end: 1.30}` with
the intensity maximum of the burst window `[1.00, 1.12)` at `t = 1.05` and
the first present positive pitch sample of the 10 ms scan at `t = 1.09`,
`analyze_vot` records `vot["quick"] = 40` milliseconds. -/
theorem analyze_vot_scenarioA :
    analyze_vot scnIntensity scnPitch [scnQuick] = [("quick", 40)] := by decide

theorem dinsert_entries {m : List (String × ℤ)} {k : String} {v : ℤ} {p : String × ℤ}
    (hp : p ∈ dinsert m k v) : p = (k, v) ∨ p ∈ m := by
  unfold dinsert at hp
  split_ifs at hp with hc
  · obtain ⟨q, hq, hqe⟩ := List.mem_map.mp hp
    by_cases hqk : q.1 = k
    · rw [if_pos hqk] at hqe
      exact Or.inl hqe.symm
    · rw [if_neg hqk] at hqe
      exact Or.inr (hqe ▸ hq)
  · rcases List.mem_append.mp hp with h | h
    · exact Or.inr h
    · exact Or.inl (List.mem_singleton.mp h)

theorem dinsert_hasKey (m : List (String × ℤ)) (k : String) (v : ℤ) (q : String) :
    (∃ w, (q, w) ∈ dinsert m k v) ↔ q = k ∨ ∃ w, (q, w) ∈ m := by
  unfold dinsert
  split_ifs with hc
  · simp only [List.any_eq_true, decide_eq_true_eq] at hc
    obtain ⟨p0, hp0, hp0k⟩ := hc
    constructor
    · rintro ⟨w, hw⟩
      obtain ⟨p, hp, hpe⟩ := List.mem_map.mp hw
      by_cases hpk : p.1 = k
      · rw [if_pos hpk] at hpe
        left
        injection hpe with h1 h2
        exact h1.symm
      · rw [if_neg hpk] at hpe
        right
        exact ⟨w, hpe ▸ hp⟩
    · rintro (rfl | ⟨w, hw⟩)
      · exact ⟨v, List.mem_map.mpr ⟨p0, hp0, by rw [if_pos hp0k]⟩⟩
      · by_cases hqk : q = k
        · subst hqk
          exact ⟨v, List.mem_map.mpr ⟨p0, hp0, by rw [if_pos hp0k]⟩⟩
        · exact ⟨w, List.mem_map.mpr ⟨(q, w), hw, by rw [if_neg hqk]⟩⟩
  · constructor
    · rintro ⟨w, hw⟩
      rcases List.mem_append.mp hw with h | h
      · exact Or.inr ⟨w, h⟩
      · exact Or.inl (congrArg Prod.fst (List.mem_singleton.mp h))
    · rintro (rfl | ⟨w, hw⟩)
      · exact ⟨v, List.mem_append.mpr (Or.inr (List.mem_singleton.mpr rfl))⟩
      · exact ⟨w, List.mem_append.mpr (Or.inl hw)⟩

theorem votLoop_entries (I P : ℚ → Option ℚ) :
    ∀ (ws : List Word) (acc : List (String × ℤ)),
      (∀ p ∈ acc, 0 ≤ p.2 ∧ p.1 ∈ votTargets) →
      ∀ p ∈ votLoop I P acc ws, 0 ≤ p.2 ∧ p.1 ∈ votTargets := by
  intro ws
  induction ws with
  | nil =>
    intro acc hacc p hp
    exact hacc p hp
  | cons w ws ih =>
    intro acc hacc p hp
    by_cases h1 : w.word ∉ votTargets
    · rw [votLoop, if_pos h1] at hp
      exact ih acc hacc p hp
    · by_cases h2 : w.wend - w.start < 5/100
      · rw [votLoop, if_neg h1, if_pos h2] at hp
        exact ih acc hacc p hp
      · rw [votLoop, if_neg h1, if_neg h2] at hp
        refine ih _ ?_ p hp
        intro q hq
        rcases dinsert_entries hq with rfl | hq2
        · exact ⟨pyround_nonneg (le_max_left 0 _), not_not.mp h1⟩
        · exact hacc q hq2

theorem votLoop_hasKey (I P : ℚ → Option ℚ) :
    ∀ (ws : List Word) (acc : List (String × ℤ)) (k : String),
      (∃ v, (k, v) ∈ votLoop I P acc ws) ↔
        (∃ v, (k, v) ∈ acc) ∨
          ∃ w ∈ ws, w.word = k ∧ w.word ∈ votTargets ∧ 5/100 ≤ w.wend - w.start := by
  intro ws
  induction ws with
  | nil =>
    intro acc k
    simp [votLoop]
  | cons w ws ih =>
    intro acc k
    by_cases h1 : w.word ∉ votTargets
    · rw [votLoop, if_pos h1, ih acc k]
      simp only [List.mem_cons, exists_eq_or_imp]
      constructor
      · rintro (h | h)
        · exact Or.inl h
        · exact Or.inr (Or.inr h)
      · rintro (h | ⟨hk, ht, hd⟩ | h)
        · exact Or.inl h
        · exact absurd ht h1
        · exact Or.inr h
    · by_cases h2 : w.wend - w.start < 5/100
      · rw [votLoop, if_neg h1, if_pos h2, ih acc k]
        have hnd : ¬ (5/100 : ℚ) ≤ w.wend - w.start := not_le.mpr h2
        simp only [List.mem_cons, exists_eq_or_imp]
        constructor
        · rintro (h | h)
          · exact Or.inl h
          · exact Or.inr (Or.inr h)
        · rintro (h | ⟨hk, ht, hd⟩ | h)
          · exact Or.inl h
          · exact absurd hd hnd
          · exact Or.inr h
      · rw [votLoop, if_neg h1, if_neg h2, ih _ k, dinsert_hasKey]
        have ht : w.word ∈ votTargets := not_not.mp h1
        have hd : (5/100 : ℚ) ≤ w.wend - w.start := not_lt.mp h2
        simp only [List.mem_cons, exists_eq_or_imp]
        constructor
        · rintro ((rfl | h) | h)
          · exact Or.inr (Or.inl ⟨rfl, ht, hd⟩)
          · exact Or.inl h
          · exact Or.inr (Or.inr h)
        · rintro (h | ⟨hk, ht2, hd2⟩ | h)
          · exact Or.inl (Or.inr h)
          · exact Or.inl (Or.inl hk.symm)
          · exact Or.inr h

/-- C5: every entry of the mapping returned by `analyze_vot` is a
non-negative integer keyed by a target word, and a key is present exactly
when some occurrence of that target word lasts at least 50 ms — occurrences
that are shorter or non-target contribute no key at all. -/
theorem analyze_vot_entries_and_keys (I P : ℚ → Option ℚ) (ws : List Word) :
    (∀ p ∈ analyze_vot I P ws, 0 ≤ p.2 ∧ p.1 ∈ votTargets) ∧
      ∀ k : String,
        (∃ v, (k, v) ∈ analyze_vot I P ws) ↔
          ∃ w ∈ ws, w.word = k ∧ w.word ∈ votTargets ∧ 5/100 ≤ w.wend - w.start := by
  constructor
  · exact votLoop_entries I P ws [] (by simp)
  · intro k
    rw [analyze_vot, votLoop_hasKey]
    simp

set_option maxRecDepth 100000 in
unseal Rat.add Rat.mul Rat.sub Rat.inv in
theorem analyze_vot_entries_and_keys_witness :
    0 ≤ (("quick", (40 : ℤ)) : String × ℤ).2 ∧
      (("quick", (40 : ℤ)) : String × ℤ).1 ∈ votTargets :=
  (analyze_vot_entries_and_keys scnIntensity scnPitch [scnQuick]).1 ("quick", 40) (by decide)

/-- C6: `analyze_prosodic_decay` returns non-negative amplitude and rate
decays, and returns exactly `(0, 0)` whenever the word list has fewer than 6
words — for every signal provider, so no provider query can influence that
result. -/
theorem analyze_prosodic_decay_props (A : ℚ → ℚ → Option ℚ) (ws : List Word) :
    0 ≤ (analyze_prosodic_decay A ws).1 ∧ 0 ≤ (analyze_prosodic_decay A ws).2 ∧
      (ws.length < 6 → analyze_prosodic_decay A ws = (0, 0)) := by
  unfold analyze_prosodic_decay
  split_ifs with h
  · exact ⟨le_refl 0, le_refl 0, fun _ => rfl⟩
  all_goals
    exact ⟨roundTo_nonneg (le_max_left 0 _), roundTo_nonneg (le_max_left 0 _),
      fun hlen => absurd hlen h⟩

theorem analyze_prosodic_decay_props_witness :
    analyze_prosodic_decay (fun _ _ => none) [] = (0, 0) :=
  (analyze_prosodic_decay_props (fun _ _ => none) []).2.2 (by norm_num)

/-- C7: `analyze_amplitude_jitter` is non-negative, and returns exactly 0
whenever fewer than 5 valid intensity samples survive the 20 ms scan, and
also whenever the mean of the surviving samples is not strictly positive. -/
theorem analyze_amplitude_jitter_props (I : ℚ → Option ℚ) (dur : ℚ) :
    0 ≤ analyze_amplitude_jitter I dur ∧
      ((jitterSamples I dur).length < 5 ∨ listMean (jitterSamples I dur) ≤ 0 →
        analyze_amplitude_jitter I dur = 0) := by
  unfold analyze_amplitude_jitter
  split_ifs with h1 h2
  · exact ⟨le_refl 0, fun _ => rfl⟩
  · constructor
    · refine roundTo_nonneg ?_
      have hm : (0 : ℝ) < ((listMean (jitterSamples I dur) : ℚ) : ℝ) := by exact_mod_cast h2
      exact div_nonneg (Real.sqrt_nonneg _) hm.le
    · rintro (h | h)
      · exact absurd h h1
      · exact absurd h2 (not_lt.mpr h)
  · exact ⟨by rw [roundTo_zero], fun _ => roundTo_zero 4⟩

set_option maxRecDepth 100000 in
unseal Rat.add Rat.mul Rat.sub Rat.inv in
theorem analyze_amplitude_jitter_props_witness :
    0 ≤ analyze_amplitude_jitter (fun _ => none) 1 ∧
      analyze_amplitude_jitter (fun _ => none) 1 = 0 :=
  ⟨(analyze_amplitude_jitter_props (fun _ => none) 1).1,
    (analyze_amplitude_jitter_props (fun _ => none) 1).2 (Or.inl (by decide))⟩

theorem wordLevelWords_eq_nil_iff (segs : List Segment) :
    wordLevelWords segs = [] ↔
      ∀ seg ∈ segs, ∀ w ∈ seg.words, normToken w.word = "" := by
  induction segs with
  | nil => simp [wordLevelWords]
  | cons seg rest ih =>
    rw [wordLevelWords, List.append_eq_nil, ih]
    constructor
    · rintro ⟨h1, h2⟩ s hs w hw
      rcases List.mem_cons.mp hs with rfl | hs2
      · have h3 := List.filterMap_eq_nil.mp h1 w hw
        by_contra hne
        rw [if_neg hne] at h3
        exact Option.some_ne_none _ h3
      · exact h2 s hs2 w hw
    · intro h
      refine ⟨List.filterMap_eq_nil.mpr (fun w hw => ?_),
        fun s hs w hw => h s (List.mem_cons_of_mem _ hs) w hw⟩
      rw [if_pos (h seg (List.mem_cons_self _ _) w hw)]

/-- C8: the even-split reconstruction is all-or-nothing: if any segment in
the whole transcription yields a word-level boundary, the result is exactly
the word-level pass (no segment uses the even split); the fallback pass is
used only when no segment produced any word-level timing. -/
theorem words_fallback_all_or_nothing (segs : List Segment) (d : ℚ) :
    ((∃ seg ∈ segs, ∃ w ∈ seg.words, normToken w.word ≠ "") →
        words_from_faster_whisper segs d = wordLevelWords segs) ∧
      ((∀ seg ∈ segs, ∀ w ∈ seg.words, normToken w.word = "") →
        words_from_faster_whisper segs d = evenSplitWords segs) := by
  constructor
  · rintro ⟨seg, hs, w, hw, hne⟩
    unfold words_from_faster_whisper
    rw [if_neg]
    intro hemp
    rw [List.isEmpty_iff] at hemp
    exact hne ((wordLevelWords_eq_nil_iff segs).mp hemp seg hs w hw)
  · intro h
    unfold words_from_faster_whisper
    rw [if_pos]
    rw [List.isEmpty_iff]
    exact (wordLevelWords_eq_nil_iff segs).mpr h

theorem words_fallback_all_or_nothing_witness :
    words_from_faster_whisper [⟨[⟨"quick", 0, 1⟩], "", 0, 1⟩] 1 =
      wordLevelWords [⟨[⟨"quick", 0, 1⟩], "", 0, 1⟩] :=
  (words_fallback_all_or_nothing [⟨[⟨"quick", 0, 1⟩], "", 0, 1⟩] 1).1
    ⟨_, List.mem_singleton.mpr rfl, _, List.mem_singleton.mpr rfl, by decide⟩

theorem badInput_of_invalid {bs : List ℕ} (hv : ¬ validHeader bs)
    (sl : Except String Sound) (tr : Except String (List Segment)) :
    badInput ⟨some bs, sl, tr⟩ :=
  Or.inr (Or.inl ⟨bs, rfl, hv⟩)

theorem badInput_valid_iff {bs : List ℕ} (hv : validHeader bs)
    (sl : Except String Sound) (tr : Except String (List Segment)) :
    badInput ⟨some bs, sl, tr⟩ ↔ ∃ s, sl = Except.ok s ∧ s.duration < 1 := by
  unfold badInput
  constructor
  · rintro (h | ⟨bs2, hbs2, hnv⟩ | ⟨bs2, s, hbs2, _, hsl, hd⟩)
    · exact absurd h (Option.some_ne_none bs)
    · rw [Option.some.injEq] at hbs2
      exact absurd (hbs2 ▸ hv) hnv
    · exact ⟨s, hsl, hd⟩
  · rintro ⟨s, hsl, hd⟩
    exact Or.inr (Or.inr ⟨bs, s, rfl, hv, hsl, hd⟩)

theorem decode_audio_valid {bs : List ℕ} (hv : validHeader bs) :
    decode_audio (some bs) = Except.ok bs := by
  obtain ⟨h1, h2, h3⟩ := hv
  simp [decode_audio, Nat.not_lt.mpr h1, h2, h3]

/-- C9: `analyze` fails with a 400-class error exactly when the input is
invalid (base64 failure, payload under 44 bytes, missing RIFF/WAVE magic, or
duration under one second); any other failure (sound loading or
transcription) surfaces as a 500-class error carrying the underlying
message; and a success response is produced exactly on valid input with
both collaborator calls succeeding. -/
theorem analyze_error_classes (inp : AnalyzeInput) :
    ((∃ d, analyze inp = Except.error (400, d)) ↔ badInput inp) ∧
      (∀ msg, analyze inp = Except.error (500, msg) →
        ¬ badInput inp ∧
          (inp.soundLoad = Except.error msg ∨ inp.transcribe = Except.error msg)) ∧
      ((∃ r, analyze inp = Except.ok r) ↔
        ¬ badInput inp ∧ (∃ s, inp.soundLoad = Except.ok s) ∧
          ∃ segs, inp.transcribe = Except.ok segs) := by
  obtain ⟨b64, sl, tr⟩ := inp
  cases b64 with
  | none =>
    refine ⟨?_, ?_, ?_⟩
    · simp [analyze, decode_audio, badInput]
    · intro msg h
      simp [analyze, decode_audio] at h
    · simp [analyze, decode_audio, badInput]
  | some bs =>
    by_cases hv : validHeader bs
    · cases sl with
      | error msg =>
        have hres : analyze ⟨some bs, Except.error msg, tr⟩ = Except.error (500, msg) := by
          simp [analyze, decode_audio_valid hv]
        refine ⟨?_, ?_, ?_⟩
        · constructor
          · rintro ⟨d, hd⟩
            rw [hres] at hd
            simp at hd
          · intro hb
            rw [badInput_valid_iff hv] at hb
            obtain ⟨s, hs, _⟩ := hb
            simp at hs
        · intro m h
          rw [hres] at h
          simp only [Except.error.injEq, Prod.mk.injEq] at h
          refine ⟨?_, Or.inl ?_⟩
          · rw [badInput_valid_iff hv]
            rintro ⟨s, hs, _⟩
            simp at hs
          · rw [h.2]
        · constructor
          · rintro ⟨r, hr⟩
            rw [hres] at hr
            simp at hr
          · rintro ⟨_, ⟨s, hs, _⟩, _⟩
            all_goals simp at hs
      | ok sound =>
        by_cases hdur : sound.duration < 1
        · have hres : analyze ⟨some bs, Except.ok sound, tr⟩ =
              Except.error (400, "Recording too short (min 1 second)") := by
            simp [analyze, decode_audio_valid hv, hdur]
          have hbad : badInput ⟨some bs, Except.ok sound, tr⟩ :=
            (badInput_valid_iff hv _ tr).mpr ⟨sound, rfl, hdur⟩
          refine ⟨⟨fun _ => hbad, fun _ => ⟨_, hres⟩⟩, ?_, ?_⟩
          · intro m h
            rw [hres] at h
            simp at h
          · constructor
            · rintro ⟨r, hr⟩
              rw [hres] at hr
              simp at hr
            · rintro ⟨hnb, _, _⟩
              exact absurd hbad hnb
        · have hnb : ¬ badInput ⟨some bs, Except.ok sound, tr⟩ := by
            rw [badInput_valid_iff hv]
            rintro ⟨s, hs, hd⟩
            rw [Except.ok.injEq] at hs
            exact hdur (hs ▸ hd)
          cases tr with
          | error msg =>
            have hres : analyze ⟨some bs, Except.ok sound, Except.error msg⟩ =
                Except.error (500, msg) := by
              simp [analyze, decode_audio_valid hv, hdur]
            refine ⟨?_, ?_, ?_⟩
            · constructor
              · rintro ⟨d, hd⟩
                rw [hres] at hd
                simp at hd
              · intro hb
                exact absurd hb hnb
            · intro m h
              rw [hres] at h
              simp only [Except.error.injEq, Prod.mk.injEq] at h
              refine ⟨hnb, Or.inr ?_⟩
              rw [h.2]
            · constructor
              · rintro ⟨r, hr⟩
                rw [hres] at hr
                simp at hr
              · rintro ⟨_, _, ⟨segs, hsegs⟩⟩
                all_goals simp at hsegs
          | ok segments =>
            have hres : ∃ r, analyze ⟨some bs, Except.ok sound, Except.ok segments⟩ =
                Except.ok r := by
              cases hA : analyze ⟨some bs, Except.ok sound, Except.ok segments⟩ with
              | ok r => exact ⟨r, rfl⟩
              | error e => simp [analyze, decode_audio_valid hv, hdur] at hA
            refine ⟨?_, ?_, ?_⟩
            · constructor
              · rintro ⟨d, hd⟩
                simp [analyze, decode_audio_valid hv, hdur] at hd
              · intro hb
                exact absurd hb hnb
            · intro m h
              simp [analyze, decode_audio_valid hv, hdur] at h
            · exact ⟨fun _ => ⟨hnb, ⟨sound, rfl⟩, ⟨segments, rfl⟩⟩, fun _ => hres⟩
    · have hbad : badInput ⟨some bs, sl, tr⟩ := badInput_of_invalid hv sl tr
      have h400 : ∃ d, analyze ⟨some bs, sl, tr⟩ = Except.error (400, d) := by
        by_cases h44 : bs.length < 44
        · exact ⟨"Audio data too short", by simp [analyze, decode_audio, h44]⟩
        · refine ⟨"Invalid WAV format", ?_⟩
          have hcond : bs.take 4 ≠ riffMagic ∨ (bs.drop 8).take 4 ≠ waveMagic := by
            unfold validHeader at hv
            push_neg at hv
            have h2 := hv (Nat.not_lt.mp h44)
            by_cases hr : bs.take 4 = riffMagic
            · exact Or.inr (h2 hr)
            · exact Or.inl hr
          simp [analyze, decode_audio, h44, hcond]
      obtain ⟨d0, hd0⟩ := h400
      refine ⟨⟨fun _ => hbad, fun _ => ⟨d0, hd0⟩⟩, ?_, ?_⟩
      · intro m h
        rw [hd0] at h
        simp at h
      · constructor
        · rintro ⟨r, hr⟩
          rw [hd0] at hr
          simp at hr
        · rintro ⟨hnb, _, _⟩
          exact absurd hbad hnb

theorem analyze_error_classes_witness :
    ∃ d, analyze ⟨none, Except.error "no sound", Except.error "no transcript"⟩ =
      Except.error (400, d) :=
  (analyze_error_classes ⟨none, Except.error "no sound", Except.error "no transcript"⟩).1.mpr
    (Or.inl rfl)
